import Mathlib

/-!
Verification development for the news-archives repository.

The repository has two source modules:
  * newsarchives/crawler.py  : FBGraphCrawler, a cursor-based pagination
    crawler over a social-media feed API (collect_feed_posts,
    save_all_page_feeds, unshorten_url, get_base_url, log_error);
  * newsarchives/archiver.py : NewsArchiver, which partitions the pending
    rows of the fb_posts table into balanced chunks (collect_url_data) and
    fetches article content per chunk (get_articles, save_articles).

This file gives a shallow embedding of those functions.  External
collaborators (the Graph API, the network, the SQL engine, pandas) are
modelled by explicit data: simulated API responses carry the page data and
the outcome of each URL resolution, and the SQL tables are lists of rows.
Python dictionaries become association lists, Python string comparison
becomes lexicographic comparison of character lists, and raising an
exception becomes an explicit crash outcome.
-/

namespace NewsArchives

/-! ## Python string comparison

Python compares strings lexicographically by code point.  The built-in
`String` order of Lean does not reduce under `decide`, so the comparison is
modelled directly on the character lists. -/

/-- Lexicographic less-or-equal on character lists, by code point. -/
def charLeB : List Char → List Char → Bool
  | [], _ => true
  | _ :: _, [] => false
  | x :: xs, y :: ys => if x = y then charLeB xs ys else decide (x < y)

/-- Model of the Python comparison `a <= b` on strings. -/
def pyLe (a b : String) : Bool := charLeB a.data b.data

/-! ## Error bookkeeping (`FBGraphCrawler.__init__` line 23, `log_error` lines 134-143)

`self.errors` is one Python dict holding a list of error objects per page
id, plus the single special key `consecutive` holding one integer.  The
per-page lists are modelled as an association list and the special key as a
separate field of the same structure. -/

/-- Association list from page id to its list of recorded failure causes. -/
abbrev ErrMap := List (String × List String)

/-- Dictionary lookup for the per-page error list.  The constructor of
`FBGraphCrawler` pre-populates one empty list per page, so lookups in the
code always find a key; a missing key defaults to the empty list here. -/
def getErrors : ErrMap → String → List String
  | [], _ => []
  | (k', v') :: rest, k => if k' = k then v' else getErrors rest k

/-- Dictionary update for the per-page error list (insert-or-replace). -/
def putErrors : ErrMap → String → List String → ErrMap
  | [], k, v => [(k, v)]
  | (k', v') :: rest, k, v =>
      if k' = k then (k, v) :: rest else (k', v') :: putErrors rest k v

/-- The `self.errors` dict: per-page failure lists plus the shared
`errors['consecutive']` counter (a single integer for the whole object). -/
structure ErrorState where
  lists : ErrMap
  consecutive : Nat
deriving DecidableEq

/-- `log_error(self, page_id, error=None, reset=False)` (crawler.py lines
134-143): when an error is given, append it to the per-page list and
increment the shared consecutive counter; when `reset` is set, zero the
shared consecutive counter. -/
def log_error (st : ErrorState) (page_id : String) (error : Option String)
    (reset : Bool) : ErrorState :=
  let st1 :=
    match error with
    | some e =>
        { st with
          lists := putErrors st.lists page_id (getErrors st.lists page_id ++ [e]),
          consecutive := st.consecutive + 1 }
    | none => st
  if reset then { st1 with consecutive := 0 } else st1

/-! ## Posts, records, and URL resolution -/

/-- One post object of a simulated Graph API page.  The fields mirror the
keys read by the code (`id`, `type`, `link`, `shares`, `created_time`); a
missing key is `none`.  `resolve` is the simulated network outcome of
`requests.head(link, allow_redirects=True)`: `some u` means the request
resolves to the final URL `u`, `none` means it raises one of
ConnectionError, TooManyRedirects, or UnicodeError. -/
structure SimPost where
  id : Option String
  type : Option String
  link : Option String
  shares : Option Nat
  created_time : Option String
  resolve : Option String
deriving DecidableEq

/-- The dict yielded for each kept post by `collect_feed_posts`
(crawler.py lines 89-94). -/
structure ParsedPost where
  post_id : Option String
  link : Option String
  base_url : Option String
  shares : Option Nat
  created_time : Option String
deriving DecidableEq

/-- A simplified model of `urlparse(url).netloc`: the host part between the
scheme separator and the next slash, empty when no scheme separator is
present.  No claim depends on the exact host value, only on whether a base
URL is present at all. -/
def afterSchemeSep : List Char → Option (List Char)
  | [] => none
  | ':' :: '/' :: '/' :: rest => some rest
  | _ :: rest => afterSchemeSep rest

/-- Characters of the host up to the first slash. -/
def takeUntilSlash : List Char → List Char
  | [] => []
  | c :: rest => if c = '/' then [] else c :: takeUntilSlash rest

/-- Host extraction used by `get_base_url`. -/
def netlocOf (s : String) : String :=
  match afterSchemeSep s.data with
  | some rest => ⟨takeUntilSlash rest⟩
  | none => ""

/-- `get_base_url(self, url)` (crawler.py lines 125-127): `if url:` guards
the parse, so a `None` or empty URL gives the implicit Python `None`. -/
def get_base_url (url : Option String) : Option String :=
  match url with
  | none => none
  | some u => if u = "" then none else some (netlocOf u)

/-- `unshorten_url(self, url, page_id)` (crawler.py lines 112-123) with the
network simulated by the `resolve` outcome carried in the post.  A falsy
URL (missing or empty) short-circuits to the implicit `None` without
touching the error state; a resolution success resets the consecutive
counter; a resolution failure logs the error and returns `None`. -/
def unshorten_url (st : ErrorState) (page_id : String) (url : Option String)
    (res : Option String) : Option String × ErrorState :=
  match url with
  | none => (none, st)
  | some u =>
      if u = "" then (none, st)
      else
        match res with
        | some r => (some r, log_error st page_id none true)
        | none => (none, log_error st page_id (some "resolution-error") false)

/-- The record built for one kept post, as a pure function of the post:
the resolved link (or `None`) and its base URL, plus the copied fields. -/
def parsePost (p : SimPost) : ParsedPost :=
  let post_url :=
    match p.link with
    | none => none
    | some u => if u = "" then none else p.resolve
  { post_id := p.id, link := post_url, base_url := get_base_url post_url,
    shares := p.shares, created_time := p.created_time }

/-- One iteration of the `for post in response['data']` body for a kept
post (crawler.py lines 87-94): resolve the link (with its error-state
effect) and build the yielded dict. -/
def processPost (st : ErrorState) (page_id : String) (p : SimPost) :
    ParsedPost × ErrorState :=
  let r := unshorten_url st page_id p.link p.resolve
  ({ post_id := p.id, link := r.1, base_url := get_base_url r.1,
     shares := p.shares, created_time := p.created_time }, r.2)

/-- The whole `for post in response['data']` loop (crawler.py lines
84-99): posts whose `type` is `link` are processed and yielded, the others
are skipped.  Returns the yielded records, the error state, and the last
value of the Python local `parsed_post` (which survives across loop
iterations and across pages). -/
def processPage (page_id : String) (st : ErrorState) (last : Option ParsedPost) :
    List SimPost → List ParsedPost × ErrorState × Option ParsedPost
  | [] => ([], st, last)
  | p :: rest =>
      if p.type = some "link" then
        let r := processPost st page_id p
        let tail := processPage page_id r.2 (some r.1) rest
        (r.1 :: tail.1, tail.2)
      else
        processPage page_id st last rest

/-! ## The pagination loop (`collect_feed_posts`, crawler.py lines 61-110) -/

/-- One simulated Graph API response to `graph.get_connections(page_id,
'posts', **params)`: either the call raises `GraphAPIError`, or it returns
a page with its post list and the optional `paging.next` URL. -/
inductive SimResponse where
  | apiError
  | page (data : List SimPost) (nextCursor : Option String)
deriving DecidableEq

/-- An unhandled Python exception inside the loop. -/
inductive Crash where
  /-- Comparing `created_time` (or `None`) with `None` via `>=`. -/
  | typeError
  /-- Reading the local `parsed_post` before any post was kept. -/
  | unboundLocal
deriving DecidableEq

/-- Why the loop stopped, in the vocabulary of the specification.  The code
has one `return` for both non-error cases; the reason recorded here is
derived from which test failed. -/
inductive DoneReason where
  | exhausted
  | dateBoundary
  | errorLimit
deriving DecidableEq

/-- Final status of a simulated run of `collect_feed_posts`. -/
inductive Outcome where
  | done (r : DoneReason)
  | crashed (c : Crash)
  /-- The simulated response list ran out while the loop wanted another
  page.  A real run always receives some response to each request. -/
  | responsesOver
  /-- The fuel of the runner ran out (shown unreachable by the
  termination theorem). -/
  | fuelOut
deriving DecidableEq

/-- Mutable state of one `collect_feed_posts` run: the request params
(carrying the pagination cursor), the shared error dict, and the Python
local `parsed_post`. -/
structure CrawlState where
  params : String
  errors : ErrorState
  lastPost : Option ParsedPost
deriving DecidableEq

/-- Arguments of one `collect_feed_posts` call. -/
structure CrawlConfig where
  error_limit : Nat
  through_date : Option String
  page_id : String
deriving DecidableEq

/-- The page part of one loop iteration after a successful API call:
reset the consecutive counter (line 78), then run the post loop. -/
def pageStep (cfg : CrawlConfig) (st : CrawlState) (data : List SimPost) :
    List ParsedPost × CrawlState :=
  let e1 := log_error st.errors cfg.page_id none true
  let r := processPage cfg.page_id e1 st.lastPost data
  (r.1, { st with errors := r.2.1, lastPost := r.2.2 })

/-- The advancing test (crawler.py lines 101-110):
`if next_page and parsed_post['created_time'] >= through_date`.
Python short-circuits on a falsy `next_page` (missing or empty string);
otherwise it reads the local `parsed_post` (raising UnboundLocalError when
no post was ever kept) and compares with `>=` (raising TypeError when
either side is `None`). -/
inductive Advance where
  | next (cursor : String)
  | stop (r : DoneReason)
  | crash (c : Crash)
deriving DecidableEq

/-- Decision taken at the bottom of one loop iteration. -/
def advanceCheck (nextCursor : Option String) (last : Option ParsedPost)
    (through_date : Option String) : Advance :=
  match nextCursor with
  | none => .stop .exhausted
  | some c =>
      if c = "" then .stop .exhausted
      else
        match last with
        | none => .crash .unboundLocal
        | some p =>
            match p.created_time, through_date with
            | some t, some d =>
                if pyLe d t then .next c else .stop .dateBoundary
            | _, _ => .crash .typeError

/-- The `while self.errors['consecutive'] < error_limit` loop of
`collect_feed_posts`, driven by a finite list of simulated responses.  The
`fuel` argument only bounds the recursion; the termination theorem shows
that `length of responses + 1` fuel is never exhausted, because every
iteration consumes exactly one response.  On `.next` the params are
replaced by the next-page URL (the information content of
`parse_qs(urlparse(next_page).query)`). -/
def crawlLoop (cfg : CrawlConfig) :
    Nat → CrawlState → List SimResponse →
    List ParsedPost × CrawlState × Outcome
  | 0, st, _ => ([], st, .fuelOut)
  | fuel + 1, st, responses =>
      if st.errors.consecutive < cfg.error_limit then
        match responses with
        | [] => ([], st, .responsesOver)
        | .apiError :: rest =>
            crawlLoop cfg fuel
              { st with errors := log_error st.errors cfg.page_id (some "GraphAPIError") false }
              rest
        | .page data nc :: rest =>
            let pr := pageStep cfg st data
            match advanceCheck nc pr.2.lastPost cfg.through_date with
            | .next c =>
                let cont := crawlLoop cfg fuel { pr.2 with params := c } rest
                (pr.1 ++ cont.1, cont.2)
            | .stop r => (pr.1, pr.2, .done r)
            | .crash c => (pr.1, pr.2, .crashed c)
      else ([], st, .done .errorLimit)

/-- `collect_feed_posts(self, page_id, through_date=None, error_limit=30)`
run against a finite list of simulated responses.  Line 69 zeroes the
consecutive counter before the loop. -/
def collect_feed_posts (cfg : CrawlConfig) (st : CrawlState)
    (responses : List SimResponse) :
    List ParsedPost × CrawlState × Outcome :=
  crawlLoop cfg (responses.length + 1)
    { st with errors := { st.errors with consecutive := 0 } } responses

/-! ## Persistence of crawled posts (`save_all_page_feeds`, crawler.py lines 40-59)

For each page the collected records are turned into a dataframe, the run
metadata columns are assigned, `drop_duplicates()` removes rows equal on
all columns within this one frame, and the result is appended to the
`fb_posts` SQL table with `if_exists='append'`. -/

/-- One row of the `fb_posts` table as written by `save_all_page_feeds`:
the record fields plus the assigned `retrieved_on`, `page_name` and
`page_id` columns. -/
structure SavedRow where
  post_id : Option String
  link : Option String
  base_url : Option String
  shares : Option Nat
  created_time : Option String
  retrieved_on : String
  page_name : String
  page_id : String
deriving DecidableEq

/-- Row built from one record by `DataFrame.from_records(...).assign(...)`. -/
def toSavedRow (now page_name page_id : String) (p : ParsedPost) : SavedRow :=
  { post_id := p.post_id, link := p.link, base_url := p.base_url,
    shares := p.shares, created_time := p.created_time,
    retrieved_on := now, page_name := page_name, page_id := page_id }

/-- Fuel-driven core of `drop_duplicates` (keep the first of equal rows).
The fuel is the list length, which always suffices because each step
shortens the list. -/
def ddGo [DecidableEq β] : Nat → List β → List β
  | _, [] => []
  | 0, l => l
  | fuel + 1, x :: xs => x :: ddGo fuel (xs.filter (fun y => !(decide (y = x))))

/-- pandas `drop_duplicates()`: keep the first occurrence of each row. -/
def dropDuplicates [DecidableEq β] (l : List β) : List β := ddGo l.length l

/-- The frame handed to `to_sql` for one page: the collected records with
the assigned columns, deduplicated within this frame only. -/
def toPersistRows (now page_name page_id : String) (recs : List ParsedPost) :
    List SavedRow :=
  dropDuplicates (recs.map (toSavedRow now page_name page_id))

/-- `to_sql(..., if_exists='append')` for one page: the deduplicated frame
is appended to the existing table; nothing already in the table is
consulted. -/
def save_page_feed (table : List SavedRow) (now page_name page_id : String)
    (recs : List ParsedPost) : List SavedRow :=
  table ++ toPersistRows now page_name page_id recs

/-! ## The batch partitioner (`collect_url_data`, archiver.py lines 65-100)

The SQL query filters `fb_posts` by `retrieved_on`, groups by
`(page_id, base_url, link)` with `min(created_time)`, numbers the rows of
each page by descending creation time (`ROW_NUMBER() OVER (PARTITION BY
page_id ORDER BY min(created_time) DESC)`), and orders the whole result by
`(Row_ID, page_id)`.  `pd.read_sql(..., chunksize=n)` then yields the rows
in successive chunks of `n`; with `chunksize=None` the whole result is one
chunk.  The rank-major order is modelled by `rankSeq` over the per-page
pending queues. -/

/-- All rows of rank `i`: for each source (in pool order, i.e. by
`page_id`) that still has an `i`-th pending record, that record tagged with
its source. -/
def rankRow (pool : List (Nat × List α)) (i : Nat) : List (Nat × α) :=
  pool.filterMap (fun p => (p.2[i]?).map (fun r => (p.1, r)))

/-- Length of the longest pending queue. -/
def maxQLen (pool : List (Nat × List α)) : Nat :=
  pool.foldr (fun p m => max p.2.length m) 0

/-- The per-rank rows, rank by rank. -/
def rankRows (pool : List (Nat × List α)) : List (List (Nat × α)) :=
  (List.range (maxQLen pool)).map (rankRow pool)

/-- The fully ordered row sequence produced by the query: all rank-1 rows
(ordered by page), then all rank-2 rows, and so on. -/
def rankSeq (pool : List (Nat × List α)) : List (Nat × α) :=
  (rankRows pool).flatten

/-- Fuel-driven chunking; fuel is the list length (each step drops at
least one element when the chunk size is positive). -/
def chunkGo (n : Nat) : Nat → List α → List (List α)
  | _, [] => []
  | 0, l => [l]
  | fuel + 1, l => l.take n :: chunkGo n fuel (l.drop n)

/-- `pd.read_sql(..., chunksize=n)`: the row sequence in chunks of `n`. -/
def chunkList (n : Nat) (l : List α) : List (List α) := chunkGo n l.length l

/-- The sequence of fetch batches produced by `collect_url_data`:
`chunksize=None` keeps the whole pool as a single batch (archiver.py lines
97-98), otherwise the row sequence is cut into chunks of `chunksize`. -/
def fetchBatches (pool : List (Nat × List α)) (chunksize : Option Nat) :
    List (List (Nat × α)) :=
  match chunksize with
  | none => [rankSeq pool]
  | some n => chunkList n (rankSeq pool)

/-- The list assigned to one source inside a batch (the `groupby('page_id')`
of `build_articlesets` restricted to this batch). -/
def sourceList (batch : List (Nat × α)) (s : Nat) : List α :=
  (batch.filter (fun it => it.1 == s)).map Prod.snd

/-! ## The SQL pipeline feeding the partitioner -/

/-- One raw row of the `fb_posts` table (the columns the query reads). -/
structure FbPostRow where
  page_id : Nat
  base_url : String
  link : String
  created_time : String
  retrieved_on : String
deriving DecidableEq

/-- One row of the `articles` table as written by `save_articles`. -/
structure ArticleRow where
  url : String
  page_id : Nat
  title : String
  text : String
deriving DecidableEq

/-- The database state seen by `NewsArchiver`. -/
structure NewsDb where
  fb_posts : List FbPostRow
  articles : List ArticleRow
deriving DecidableEq

/-- The `retrieved_btw` bounds; `collect_url_data` defaults to
2000-01-01 .. 2020-01-01 (archiver.py lines 79-80). -/
structure DateRange where
  start : String
  stop : String
deriving DecidableEq

/-- The default `retrieved_btw` range. -/
def defaultRange : DateRange := ⟨"2000-01-01", "2020-01-01"⟩

/-- The `WHERE retrieved_on >= start AND retrieved_on <= end` filter. -/
def inRange (r : DateRange) (row : FbPostRow) : Bool :=
  pyLe r.start row.retrieved_on && pyLe row.retrieved_on r.stop

/-- Fuel-driven first-occurrence deduplication of the grouping keys. -/
def dkGo [DecidableEq κ] : Nat → List κ → List κ
  | _, [] => []
  | 0, l => l
  | fuel + 1, k :: rest => k :: dkGo fuel (rest.filter (fun k' => !(decide (k' = k))))

/-- The distinct values of a key list, first occurrences kept in order. -/
def dedupKeys [DecidableEq κ] (l : List κ) : List κ := dkGo l.length l

/-- The `GROUP BY` key of the query. -/
def rowKey (row : FbPostRow) : Nat × String × String :=
  (row.page_id, row.base_url, row.link)

/-- `min` of a list of SQL strings (lexicographic). -/
def minString : List String → String
  | [] => ""
  | x :: xs => xs.foldl (fun a b => if pyLe a b then a else b) x

/-- One output row of the inner `GROUP BY` query. -/
structure GroupedRow where
  page_id : Nat
  base_url : String
  link : String
  created_time : String
deriving DecidableEq

/-- The grouped rows: one per distinct `(page_id, base_url, link)` among
the in-range rows, with the minimum `created_time` of the group. -/
def groupRows (rows : List FbPostRow) : List GroupedRow :=
  (dedupKeys (rows.map rowKey)).map (fun k =>
    ⟨k.1, k.2.1, k.2.2,
      minString ((rows.filter (fun r => rowKey r == k)).map (·.created_time))⟩)

/-- Insertion into a list sorted by the Boolean relation `le`. -/
def insertBy (le : α → α → Bool) (a : α) : List α → List α
  | [] => [a]
  | x :: xs => if le a x then a :: x :: xs else x :: insertBy le a xs

/-- Insertion sort by the Boolean relation `le`. -/
def sortBy (le : α → α → Bool) (l : List α) : List α :=
  l.foldr (insertBy le) []

/-- The per-page pending queues implied by the query: pages in ascending
`page_id` order, each queue ordered by descending `created_time` (newest
first), matching `ROW_NUMBER ... ORDER BY min(created_time) DESC` and the
outer `ORDER BY Row_ID, page_id`. -/
def pendingPool (rows : List FbPostRow) (range : DateRange) :
    List (Nat × List GroupedRow) :=
  let g := groupRows (rows.filter (inRange range))
  let pids := sortBy Nat.ble (dedupKeys (g.map (·.page_id)))
  pids.map (fun p =>
    (p, sortBy (fun a b => pyLe b.created_time a.created_time)
          (g.filter (fun r => r.page_id == p))))

/-- `collect_url_data(self, retrieved_btw=None, chunksize=None)`
(archiver.py lines 65-100): the batches of pending rows handed to each
fetch round.  Only the `fb_posts` table is read. -/
def collect_url_data (db : NewsDb) (range : DateRange)
    (chunksize : Option Nat) : List (List (Nat × GroupedRow)) :=
  fetchBatches (pendingPool db.fb_posts range) chunksize

/-- Whether a pending row already has a persisted article: an `articles`
row with the same URL for the same page. -/
def alreadyArchived (db : NewsDb) (item : Nat × GroupedRow) : Prop :=
  ∃ a ∈ db.articles, a.url = item.2.link ∧ a.page_id = item.1

instance (db : NewsDb) (item : Nat × GroupedRow) :
    Decidable (alreadyArchived db item) := by
  unfold alreadyArchived; infer_instance

/-! # Helper lemmas -/

lemma getErrors_putErrors_same (m : ErrMap) (k : String) (v : List String) :
    getErrors (putErrors m k v) k = v := by
  induction m with
  | nil => simp [putErrors, getErrors]
  | cons kv rest ih =>
      by_cases h : kv.1 = k
      · simp [putErrors, getErrors, h]
      · simpa [putErrors, getErrors, h] using ih

lemma getErrors_putErrors_ne (m : ErrMap) (k k' : String) (v : List String)
    (h : k ≠ k') : getErrors (putErrors m k v) k' = getErrors m k' := by
  induction m with
  | nil => simp [putErrors, getErrors, h]
  | cons kv rest ih =>
      by_cases hk : kv.1 = k
      · simp [putErrors, getErrors, hk, h]
      · simp [putErrors, getErrors, hk, ih]

/-- The record yielded for a post does not depend on the error state. -/
lemma processPost_fst (st : ErrorState) (pid : String) (q : SimPost) :
    (processPost st pid q).1 = parsePost q := by
  unfold processPost unshorten_url parsePost
  cases hq : q.link with
  | none => rfl
  | some u =>
      by_cases hu : u = "" <;> cases q.resolve <;> simp [hu]

/-- The post loop yields exactly one record per link-type post of the
page, in page order, whatever the error state: no failure aborts the page
or suppresses a record. -/
lemma processPage_records (pid : String) (posts : List SimPost) :
    ∀ (st : ErrorState) (last : Option ParsedPost),
      (processPage pid st last posts).1 =
        (posts.filter (fun q => decide (q.type = some "link"))).map parsePost := by
  induction posts with
  | nil => intro st last; simp [processPage]
  | cons q rest ih =>
      intro st last
      by_cases hq : q.type = some "link"
      · simp [processPage, hq, processPost_fst, ih]
      · simp [processPage, hq, ih]

/-! # Claims about the Feed Crawler -/

/-- With fuel exceeding the number of simulated responses, the loop never
runs out of fuel: every iteration of the `while` loop consumes exactly one
response, in both the success and the failure branch. -/
lemma crawlLoop_ne_fuelOut (rs : List SimResponse) :
    ∀ (cfg : CrawlConfig) (fuel : Nat) (st : CrawlState),
      rs.length < fuel → (crawlLoop cfg fuel st rs).2.2 ≠ Outcome.fuelOut := by
  induction rs with
  | nil =>
      intro cfg fuel st h
      match fuel with
      | f + 1 =>
          simp only [crawlLoop]
          split <;> simp
  | cons r rest ih =>
      intro cfg fuel st h
      match fuel with
      | f + 1 =>
          have hlen : rest.length < f := by
            simpa [Nat.succ_lt_succ_iff] using h
          simp only [crawlLoop]
          split
          · cases r with
            | apiError => exact ih cfg f _ hlen
            | page data nc =>
                cases hadv : advanceCheck nc (pageStep cfg st data).2.lastPost
                    cfg.through_date with
                | next c =>
                    simp only [hadv]
                    simpa using ih cfg f _ hlen
                | stop r => simp only [hadv]; simp
                | crash c => simp only [hadv]; simp
          · simp

/-- C1 amended: for every finite sequence of simulated Feed API responses,
`collect_feed_posts` terminates — the loop, given fuel one more than the
number of available responses, never exhausts it, because each iteration
consumes exactly one response — and every run ends either with one of the
three normal reasons (cursor exhaustion, date boundary, error budget), or
with an unhandled exception at the advancing comparison (TypeError on a
missing date bound, UnboundLocalError when no post was ever kept), or
because the finite simulated response stream ran out. -/
theorem c1_amended (cfg : CrawlConfig) (st : CrawlState)
    (responses : List SimResponse) :
    (collect_feed_posts cfg st responses).2.2 ≠ Outcome.fuelOut ∧
    ((collect_feed_posts cfg st responses).2.2 =
        Outcome.done DoneReason.exhausted ∨
      (collect_feed_posts cfg st responses).2.2 =
        Outcome.done DoneReason.dateBoundary ∨
      (collect_feed_posts cfg st responses).2.2 =
        Outcome.done DoneReason.errorLimit ∨
      (collect_feed_posts cfg st responses).2.2 =
        Outcome.crashed Crash.typeError ∨
      (collect_feed_posts cfg st responses).2.2 =
        Outcome.crashed Crash.unboundLocal ∨
      (collect_feed_posts cfg st responses).2.2 =
        Outcome.responsesOver) := by
  have hterm : (collect_feed_posts cfg st responses).2.2 ≠ Outcome.fuelOut :=
    crawlLoop_ne_fuelOut responses cfg _ _ (Nat.lt_succ_self _)
  refine ⟨hterm, ?_⟩
  cases h : (collect_feed_posts cfg st responses).2.2 with
  | done r => cases r <;> simp [h]
  | crashed c => cases c <;> simp [h]
  | responsesOver => simp [h]
  | fuelOut => exact absurd h hterm

/-- C3: at the bottom of an iteration that fetched a page, when the last
kept post has a creation timestamp and a lower date bound was supplied:
with a (truthy) next-cursor and timestamp still at or after the bound, the
crawler sets its params to the next-page cursor and loops; with the
timestamp strictly before the bound it stops with the date-boundary
reason; and with no next-cursor it stops with the exhausted reason. -/
theorem c3_advance_decision (cfg : CrawlConfig) (fuel : Nat)
    (st : CrawlState) (data : List SimPost) (c : String)
    (rest : List SimResponse) (p : ParsedPost) (t d : String)
    (hbudget : st.errors.consecutive < cfg.error_limit)
    (hc : ¬ (c = ""))
    (hlast : (pageStep cfg st data).2.lastPost = some p)
    (ht : p.created_time = some t)
    (hd : cfg.through_date = some d) :
    (pyLe d t = true →
      crawlLoop cfg (fuel + 1) st (SimResponse.page data (some c) :: rest) =
        ((pageStep cfg st data).1 ++
            (crawlLoop cfg fuel { (pageStep cfg st data).2 with params := c } rest).1,
          (crawlLoop cfg fuel { (pageStep cfg st data).2 with params := c } rest).2)) ∧
    (pyLe d t = false →
      crawlLoop cfg (fuel + 1) st (SimResponse.page data (some c) :: rest) =
        ((pageStep cfg st data).1, (pageStep cfg st data).2,
          Outcome.done DoneReason.dateBoundary)) ∧
    crawlLoop cfg (fuel + 1) st (SimResponse.page data none :: rest) =
      ((pageStep cfg st data).1, (pageStep cfg st data).2,
        Outcome.done DoneReason.exhausted) := by
  refine ⟨fun hle => ?_, fun hgt => ?_, ?_⟩
  · simp only [crawlLoop, if_pos hbudget, advanceCheck, hlast, ht, hd, hc,
      if_neg hc, hle, if_pos rfl]
    simp
  · simp only [crawlLoop, if_pos hbudget, advanceCheck, hlast, ht, hd, hc,
      if_neg hc, hgt]
    simp
  · simp only [crawlLoop, if_pos hbudget, advanceCheck]

/-- Witness for C3 at a concrete page: one kept post created 2023-01-01,
bound 2000-01-01, next cursor present. -/
def w3post : SimPost :=
  ⟨some "post9", some "link", some "http://sh.rt/z", none,
    some "2023-01-01", some "http://news.example/a"⟩

/-- Concrete crawl state for witnesses. -/
def wSt : CrawlState := ⟨"start", ⟨[("p1", [])], 0⟩, none⟩

/-- Concrete config with a date bound for witnesses. -/
def wCfgD : CrawlConfig := ⟨30, some "2000-01-01", "p1"⟩

/-- The record parsed from `w3post`. -/
def w3rec : ParsedPost :=
  ⟨some "post9", some "http://news.example/a", some "news.example", none,
    some "2023-01-01"⟩

theorem c3_advance_decision_witness :
    (0 < 30 ∧ ¬ ("cur" = "") ∧
      (pageStep wCfgD wSt [w3post]).2.lastPost = some w3rec ∧
      w3rec.created_time = some "2023-01-01" ∧
      wCfgD.through_date = some "2000-01-01") ∧
    ((pyLe "2000-01-01" "2023-01-01" = true →
      crawlLoop wCfgD 4 wSt (SimResponse.page [w3post] (some "cur") :: []) =
        ((pageStep wCfgD wSt [w3post]).1 ++
            (crawlLoop wCfgD 3 { (pageStep wCfgD wSt [w3post]).2 with params := "cur" } []).1,
          (crawlLoop wCfgD 3 { (pageStep wCfgD wSt [w3post]).2 with params := "cur" } []).2)) ∧
    (pyLe "2000-01-01" "2023-01-01" = false →
      crawlLoop wCfgD 4 wSt (SimResponse.page [w3post] (some "cur") :: []) =
        ((pageStep wCfgD wSt [w3post]).1, (pageStep wCfgD wSt [w3post]).2,
          Outcome.done DoneReason.dateBoundary)) ∧
    crawlLoop wCfgD 4 wSt (SimResponse.page [w3post] none :: []) =
      ((pageStep wCfgD wSt [w3post]).1, (pageStep wCfgD wSt [w3post]).2,
        Outcome.done DoneReason.exhausted)) :=
  ⟨⟨by decide, by decide, by decide, by decide, by decide⟩,
    c3_advance_decision wCfgD 3 wSt [w3post] "cur" [] w3rec
      "2023-01-01" "2000-01-01" (by decide) (by decide) (by decide)
      (by decide) (by decide)⟩

/-- C10: with the lower date bound left at its default `None` (as
`save_all_page_feeds` calls it) and a fetched page carrying a (truthy)
next-cursor after at least one post was kept, the advancing comparison
`parsed_post['created_time'] >= None` raises TypeError: the run ends in a
crash, neither advancing to the next page nor reaching a normal `Done`
outcome. -/
theorem c10_default_none_bound_crashes (cfg : CrawlConfig) (fuel : Nat)
    (st : CrawlState) (data : List SimPost) (c : String)
    (rest : List SimResponse) (p : ParsedPost)
    (hd : cfg.through_date = none)
    (hc : ¬ (c = ""))
    (hbudget : st.errors.consecutive < cfg.error_limit)
    (hlast : (pageStep cfg st data).2.lastPost = some p) :
    crawlLoop cfg (fuel + 1) st (SimResponse.page data (some c) :: rest) =
      ((pageStep cfg st data).1, (pageStep cfg st data).2,
        Outcome.crashed Crash.typeError) := by
  have hadv : advanceCheck (some c) (pageStep cfg st data).2.lastPost
      cfg.through_date = Advance.crash Crash.typeError := by
    rw [hlast, hd]
    simp only [advanceCheck, if_neg hc]
    cases p.created_time <;> rfl
  simp only [crawlLoop, if_pos hbudget, hadv]

/-- Concrete config with the default `through_date=None`. -/
def wCfgN : CrawlConfig := ⟨30, none, "p1"⟩

theorem c10_default_none_bound_crashes_witness :
    (wCfgN.through_date = none ∧ ¬ ("cur" = "") ∧ 0 < 30 ∧
      (pageStep wCfgN wSt [w3post]).2.lastPost = some w3rec) ∧
    crawlLoop wCfgN 4 wSt (SimResponse.page [w3post] (some "cur") :: []) =
      ((pageStep wCfgN wSt [w3post]).1, (pageStep wCfgN wSt [w3post]).2,
        Outcome.crashed Crash.typeError) :=
  ⟨⟨by decide, by decide, by decide, by decide⟩,
    c10_default_none_bound_crashes wCfgN 3 wSt [w3post] "cur" [] w3rec
      (by decide) (by decide) (by decide) (by decide)⟩

/-- C1 counterexample: the claim also asserts that every run ends by
cursor exhaustion, date boundary, or error budget.  This run — one page
with a kept post and a next-cursor, crawled with the default date bound
`None` — terminates, but by a TypeError crash at the advancing comparison,
which is none of the three listed reasons. -/
theorem c1_counterexample :
    (collect_feed_posts wCfgN wSt
        [SimResponse.page [w3post] (some "cur")]).2.2 =
      Outcome.crashed Crash.typeError ∧
    ¬ ((collect_feed_posts wCfgN wSt
        [SimResponse.page [w3post] (some "cur")]).2.2 =
      Outcome.done DoneReason.exhausted) ∧
    ¬ ((collect_feed_posts wCfgN wSt
        [SimResponse.page [w3post] (some "cur")]).2.2 =
      Outcome.done DoneReason.dateBoundary) ∧
    ¬ ((collect_feed_posts wCfgN wSt
        [SimResponse.page [w3post] (some "cur")]).2.2 =
      Outcome.done DoneReason.errorLimit) ∧
    ¬ ((collect_feed_posts wCfgN wSt
        [SimResponse.page [w3post] (some "cur")]).2.2 =
      Outcome.fuelOut) := by
  refine ⟨?_, ?_, ?_, ?_, ?_⟩ <;> decide

/-! # C2: the consecutive-error budget -/

/-- A page response whose single post succeeds end to end (link type,
resolvable URL, created after any reasonable bound) and which carries a
next-cursor, so that a crawl continues after it. -/
def okPost : SimPost :=
  ⟨some "pA", some "link", some "http://sh.rt/a", some 3,
    some "2023-06-01", some "http://news.example/s"⟩

/-- The record parsed from `okPost`. -/
def okRec : ParsedPost :=
  ⟨some "pA", some "http://news.example/s", some "news.example", some 3,
    some "2023-06-01"⟩

/-- The successful page response used in the alternating stream. -/
def okPage : SimResponse := .page [okPost] (some "http://api/page2?after=c2")

/-- A response stream alternating failure and success, k times each. -/
def altResponses : Nat → List SimResponse
  | 0 => []
  | k + 1 => .apiError :: okPage :: altResponses k

/-- Processing `okPage` from any state: the post is kept, the consecutive
counter ends at zero (API success reset, then resolver success reset), and
the per-page error lists are untouched. -/
lemma pageStep_okPage (cfg : CrawlConfig) (st : CrawlState) :
    pageStep cfg st [okPost] =
      ([okRec], ⟨st.params, ⟨st.errors.lists, 0⟩, some okRec⟩) := rfl

/-- A failing API call inside the loop: log the error and retry with the
same params. -/
lemma crawlLoop_apiError_step (cfg : CrawlConfig) (fuel : Nat)
    (st : CrawlState) (rest : List SimResponse)
    (h : st.errors.consecutive < cfg.error_limit) :
    crawlLoop cfg (fuel + 1) st (.apiError :: rest) =
      crawlLoop cfg fuel
        { st with errors := log_error st.errors cfg.page_id (some "GraphAPIError") false }
        rest := by
  simp only [crawlLoop, if_pos h]

/-- A successful page followed by an advance: the outcome of the run is
the outcome of the continuation with a fresh consecutive counter. -/
lemma crawlLoop_okPage_outcome (cfg : CrawlConfig) (fuel : Nat)
    (st : CrawlState) (rest : List SimResponse)
    (h : st.errors.consecutive < cfg.error_limit)
    (hth : cfg.through_date = some "2000-01-01") :
    (crawlLoop cfg (fuel + 1) st (okPage :: rest)).2.2 =
      (crawlLoop cfg fuel
          ⟨"http://api/page2?after=c2", ⟨st.errors.lists, 0⟩, some okRec⟩
          rest).2.2 := by
  have hadv : advanceCheck (some "http://api/page2?after=c2") (some okRec)
      (some "2000-01-01") = Advance.next "http://api/page2?after=c2" := by
    decide
  show (crawlLoop cfg (fuel + 1) st (.page [okPost] (some "http://api/page2?after=c2") :: rest)).2.2 = _
  simp only [crawlLoop, if_pos h, pageStep_okPage, hth, hadv]

/-- `k` more consecutive failures exhaust an error budget that is `k` away
from the limit; the params (the pagination cursor) are never changed along
the way, and no record is yielded. -/
lemma crawlLoop_replicate_fail (cfg : CrawlConfig) :
    ∀ (k fuel : Nat) (st : CrawlState),
      st.errors.consecutive + k = cfg.error_limit → k < fuel →
      (crawlLoop cfg fuel st (List.replicate k .apiError)).2.2 =
          Outcome.done DoneReason.errorLimit ∧
      (crawlLoop cfg fuel st (List.replicate k .apiError)).2.1.params =
          st.params ∧
      (crawlLoop cfg fuel st (List.replicate k .apiError)).1 = [] := by
  intro k
  induction k with
  | zero =>
      intro fuel st hsum hf
      match fuel with
      | f + 1 =>
          have hstop : ¬ st.errors.consecutive < cfg.error_limit := by omega
          simp [crawlLoop, hstop]
  | succ k ih =>
      intro fuel st hsum hf
      match fuel with
      | f + 1 =>
          have hlt : st.errors.consecutive < cfg.error_limit := by omega
          rw [List.replicate_succ, crawlLoop_apiError_step cfg f st _ hlt]
          have := ih f
            { st with errors := log_error st.errors cfg.page_id (some "GraphAPIError") false }
            (by simp [log_error]; omega) (by omega)
          simpa using this

/-- An alternating failure/success stream never lets the consecutive
counter reach a budget of at least two, because each success resets it. -/
lemma crawlLoop_alt_no_trip (cfg : CrawlConfig)
    (h2 : 2 ≤ cfg.error_limit) (hth : cfg.through_date = some "2000-01-01") :
    ∀ (k fuel : Nat) (st : CrawlState), st.errors.consecutive = 0 →
      (crawlLoop cfg fuel st (altResponses k)).2.2 ≠
        Outcome.done DoneReason.errorLimit := by
  intro k
  induction k with
  | zero =>
      intro fuel st h0
      match fuel with
      | 0 => simp [crawlLoop, altResponses]
      | f + 1 =>
          have hlt : st.errors.consecutive < cfg.error_limit := by omega
          simp [crawlLoop, altResponses, hlt]
  | succ k ih =>
      intro fuel st h0
      match fuel with
      | 0 => simp [crawlLoop]
      | 1 =>
          have hlt : st.errors.consecutive < cfg.error_limit := by omega
          rw [show altResponses (k + 1) = .apiError :: okPage :: altResponses k from rfl,
            crawlLoop_apiError_step cfg 0 st _ hlt]
          simp [crawlLoop]
      | f + 2 =>
          have hlt : st.errors.consecutive < cfg.error_limit := by omega
          rw [show altResponses (k + 1) = .apiError :: okPage :: altResponses k from rfl,
            crawlLoop_apiError_step cfg (f + 1) st _ hlt]
          set st1 : CrawlState :=
            { st with errors := log_error st.errors cfg.page_id (some "GraphAPIError") false }
            with hst1
          have hlt1 : st1.errors.consecutive < cfg.error_limit := by
            simp [hst1, log_error, h0]; omega
          intro hbad
          rw [crawlLoop_okPage_outcome cfg f st1 (altResponses k) hlt1 hth] at hbad
          exact ih f _ rfl hbad

/-- Crawl configuration used for the C2 statement: error budget `N`,
lower date bound 2000-01-01, page `p1`. -/
def cfgN (N : Nat) : CrawlConfig := ⟨N, some "2000-01-01", "p1"⟩

/-- C2: with an error budget of `N` (at least 2; the default is 30), a
source failing `N` times consecutively ends with the error-limit outcome,
with the request params (the cursor) unchanged — the same page was retried
every time — and no record yielded; whereas a stream alternating failure
and success never trips the budget for any length `k`, because each
success resets the consecutive count to zero. -/
theorem c2_error_budget (N : Nat) (st₁ st₂ : CrawlState) (hN : 2 ≤ N) :
    ((collect_feed_posts (cfgN N) st₁ (List.replicate N .apiError)).2.2 =
        Outcome.done DoneReason.errorLimit ∧
      (collect_feed_posts (cfgN N) st₁ (List.replicate N .apiError)).2.1.params =
        st₁.params ∧
      (collect_feed_posts (cfgN N) st₁ (List.replicate N .apiError)).1 = []) ∧
    ∀ k, (collect_feed_posts (cfgN N) st₂ (altResponses k)).2.2 ≠
      Outcome.done DoneReason.errorLimit := by
  constructor
  · have := crawlLoop_replicate_fail (cfgN N) N ((List.replicate N SimResponse.apiError).length + 1)
      { st₁ with errors := { st₁.errors with consecutive := 0 } }
      (by simp [cfgN]) (by simp)
    exact this
  · intro k
    exact crawlLoop_alt_no_trip (cfgN N) hN rfl k _
      { st₂ with errors := { st₂.errors with consecutive := 0 } } rfl

theorem c2_error_budget_witness :
    2 ≤ 30 ∧
    ((collect_feed_posts (cfgN 30) wSt (List.replicate 30 .apiError)).2.2 =
        Outcome.done DoneReason.errorLimit ∧
      (collect_feed_posts (cfgN 30) wSt (List.replicate 30 .apiError)).2.1.params =
        wSt.params ∧
      (collect_feed_posts (cfgN 30) wSt (List.replicate 30 .apiError)).1 = []) ∧
    (collect_feed_posts (cfgN 30) wSt (altResponses 1)).2.2 ≠
      Outcome.done DoneReason.errorLimit :=
  ⟨by decide, (c2_error_budget 30 wSt wSt (by decide)).1,
    (c2_error_budget 30 wSt wSt (by decide)).2 1⟩

/-! # C4: the error tracker is not keyed by source for its counter -/

/-- Error dict with keys for pages A and B and no failures yet. -/
def c4st0 : ErrorState := ⟨[("A", []), ("B", [])], 0⟩

/-- Error dict after five consecutive failures (all recorded for B). -/
def c4stB : ErrorState := ⟨[("A", []), ("B", ["e1", "e2", "e3", "e4", "e5"])], 5⟩

/-- C4 counterexample: recording a failure for page A changes the
consecutive-failure count that `collect_feed_posts` consults for page B,
because `self.errors['consecutive']` is one shared counter; and recording
a success for A resets to zero a count built entirely from failures of B. -/
theorem c4_counterexample :
    ¬ ((log_error c4st0 "A" (some "boom") false).consecutive =
        c4st0.consecutive) ∧
    (log_error c4stB "A" none true).consecutive = 0 := by
  constructor
  · decide
  · decide

/-- C4 amended: only the per-source error lists are keyed by source
identifier: a failure recorded for A appends to the list of A and leaves
the list of B unchanged; but the consecutive-failure counter is a single
shared field, which any failure increments and any success resets,
whatever the source. -/
theorem c4_amended (st : ErrorState) (a b cause : String) (h : ¬ (a = b)) :
    getErrors (log_error st a (some cause) false).lists b =
      getErrors st.lists b ∧
    getErrors (log_error st a (some cause) false).lists a =
      getErrors st.lists a ++ [cause] ∧
    (log_error st a (some cause) false).consecutive = st.consecutive + 1 ∧
    (log_error st a none true).consecutive = 0 := by
  refine ⟨?_, ?_, rfl, rfl⟩
  · simpa [log_error] using getErrors_putErrors_ne st.lists a b _ h
  · simpa [log_error] using getErrors_putErrors_same st.lists a _

theorem c4_amended_witness :
    ¬ ("A" = "B") ∧
    (getErrors (log_error c4st0 "A" (some "boom") false).lists "B" =
        getErrors c4st0.lists "B" ∧
      getErrors (log_error c4st0 "A" (some "boom") false).lists "A" =
        getErrors c4st0.lists "A" ++ ["boom"] ∧
      (log_error c4st0 "A" (some "boom") false).consecutive =
        c4st0.consecutive + 1 ∧
      (log_error c4st0 "A" none true).consecutive = 0) :=
  ⟨by decide, c4_amended c4st0 "A" "B" "boom" (by decide)⟩

/-! # C8: resolution failure is record-local -/

/-- C8: a link-type post whose URL resolution fails is still emitted, with
a null resolved link and a null base URL, and the failure is recorded for
the source (consecutive counter incremented, cause appended to the page
error list); the page loop keeps yielding one record per link-type post
whatever the resolution outcomes, so no resolution failure aborts the page
or suppresses a record. -/
theorem c8_resolution_failure_record_local (p : SimPost) (u : String)
    (hl : p.type = some "link") (hu : p.link = some u) (hne : ¬ (u = ""))
    (hres : p.resolve = none) :
    (∀ (pid : String) (st : ErrorState) (last : Option ParsedPost)
        (posts : List SimPost),
      (processPage pid st last posts).1 =
        (posts.filter (fun q => decide (q.type = some "link"))).map parsePost) ∧
    parsePost p = ⟨p.id, none, none, p.shares, p.created_time⟩ ∧
    (∀ (pid : String) (st : ErrorState),
      (processPost st pid p).2.consecutive = st.consecutive + 1 ∧
      getErrors (processPost st pid p).2.lists pid =
        getErrors st.lists pid ++ ["resolution-error"]) := by
  refine ⟨fun pid st last posts => processPage_records pid posts st last,
    ?_, fun pid st => ⟨?_, ?_⟩⟩
  · unfold parsePost
    rw [hu]
    simp [hne, hres, get_base_url]
  · unfold processPost unshorten_url
    rw [hu]
    simp [hne, hres, log_error]
  · unfold processPost unshorten_url
    rw [hu]
    simp only [if_neg hne, hres, log_error]
    simpa using getErrors_putErrors_same st.lists pid _

/-- A link post whose resolution fails (connection error etc.). -/
def w8post : SimPost :=
  ⟨some "post3", some "link", some "http://sh.rt/q", some 7,
    some "2019-04-01", none⟩

theorem c8_resolution_failure_record_local_witness :
    (w8post.type = some "link" ∧ w8post.link = some "http://sh.rt/q" ∧
      ¬ ("http://sh.rt/q" = "") ∧ w8post.resolve = none) ∧
    ((processPage "p1" ⟨[("p1", [])], 0⟩ none [w8post]).1 =
        ([w8post].filter (fun q => decide (q.type = some "link"))).map parsePost ∧
      parsePost w8post =
        ⟨some "post3", none, none, some 7, some "2019-04-01"⟩ ∧
      (processPost ⟨[("p1", [])], 0⟩ "p1" w8post).2.consecutive = 0 + 1 ∧
      getErrors (processPost ⟨[("p1", [])], 0⟩ "p1" w8post).2.lists "p1" =
        getErrors (⟨[("p1", [])], 0⟩ : ErrorState).lists "p1" ++
          ["resolution-error"]) :=
  ⟨⟨by decide, by decide, by decide, by decide⟩,
    (c8_resolution_failure_record_local w8post "http://sh.rt/q"
        (by decide) (by decide) (by decide) (by decide)).1 "p1"
      ⟨[("p1", [])], 0⟩ none [w8post],
    (c8_resolution_failure_record_local w8post "http://sh.rt/q"
        (by decide) (by decide) (by decide) (by decide)).2.1,
    ((c8_resolution_failure_record_local w8post "http://sh.rt/q"
        (by decide) (by decide) (by decide) (by decide)).2.2 "p1"
      ⟨[("p1", [])], 0⟩).1,
    ((c8_resolution_failure_record_local w8post "http://sh.rt/q"
        (by decide) (by decide) (by decide) (by decide)).2.2 "p1"
      ⟨[("p1", [])], 0⟩).2⟩

/-! # C5: per-batch fairness of the partitioner

The chunks of the rank-major sequence are balanced: inside one chunk, two
sources that both still have records left after the chunk occur numbers of
times that differ by at most one, because each of them occurs exactly once
per rank, in a fixed relative order. -/

/-- Number of records a source holds inside a batch. -/
def countSrc (s : Nat) (l : List (Nat × α)) : Nat :=
  l.countP (fun it => it.1 == s)

/-- The source `s` still has pending records after batch `j` of chunk size
`n`: some row for `s` lies beyond the end of that chunk. -/
def remainingAfter (pool : List (Nat × List α)) (n j : Nat) (s : Nat) : Prop :=
  0 < countSrc s ((rankSeq pool).drop ((j + 1) * n))

instance (pool : List (Nat × List α)) (n j s : Nat) :
    Decidable (remainingAfter pool n j s) := by
  unfold remainingAfter; infer_instance

lemma sourceList_length (batch : List (Nat × α)) (s : Nat) :
    (sourceList batch s).length = countSrc s batch := by
  simp [sourceList, countSrc, List.countP_eq_length_filter]

lemma countSrc_take_le (s : Nat) (l : List (Nat × α)) (m : Nat) :
    countSrc s (l.take m) ≤ countSrc s l :=
  (List.take_sublist m l).countP_le _

lemma chunkGo_getElem {α : Type _} (n : Nat) (hn : 0 < n) :
    ∀ (fuel : Nat) (l : List α) (j : Nat) (b : List α),
      l.length ≤ fuel → (chunkGo n fuel l)[j]? = some b →
      b = (l.drop (j * n)).take n := by
  intro fuel
  induction fuel with
  | zero =>
      intro l j b hlen hb
      match l with
      | [] => simp [chunkGo] at hb
      | x :: xs => simp at hlen
  | succ f ih =>
      intro l j b hlen hb
      match l with
      | [] => simp [chunkGo] at hb
      | x :: xs =>
          match j with
          | 0 =>
              simp only [chunkGo, List.getElem?_cons_zero, Option.some.injEq] at hb
              simpa using hb.symm
          | j + 1 =>
              simp only [chunkGo, List.getElem?_cons_succ] at hb
              have hlen' : xs.length + 1 ≤ f + 1 := by
                simpa using hlen
              have hdlen : ((x :: xs).drop n).length ≤ f := by
                rw [List.length_drop, List.length_cons]
                omega
              have hrec := ih ((x :: xs).drop n) j b hdlen hb
              rw [List.drop_drop] at hrec
              rw [show (j + 1) * n = n + j * n from by ring]
              exact hrec

lemma fetchBatches_getElem {α : Type _} (pool : List (Nat × List α))
    {n j : Nat} (hn : 0 < n) {b : List (Nat × α)}
    (hb : (fetchBatches pool (some n))[j]? = some b) :
    b = ((rankSeq pool).drop (j * n)).take n :=
  chunkGo_getElem n hn _ _ j b le_rfl hb

lemma rankRow_append (P Q : List (Nat × List α)) (i : Nat) :
    rankRow (P ++ Q) i = rankRow P i ++ rankRow Q i := by
  simp [rankRow]

lemma rankRow_cons_alive (s : Nat) (q : List α) (P : List (Nat × List α))
    (i : Nat) (h : i < q.length) :
    rankRow ((s, q) :: P) i = (s, q[i]) :: rankRow P i := by
  simp [rankRow, List.filterMap_cons, List.getElem?_eq_getElem h]

lemma countSrc_rankRow_of_notMem (s : Nat) (P : List (Nat × List α)) (i : Nat)
    (h : s ∉ P.map Prod.fst) : countSrc s (rankRow P i) = 0 := by
  induction P with
  | nil => rfl
  | cons p P' ih =>
      simp only [List.map_cons, List.mem_cons, not_or] at h
      have hrest := ih h.2
      show countSrc s (List.filterMap _ (p :: P')) = 0
      rw [List.filterMap_cons]
      cases hp : p.2[i]? with
      | none =>
          simp only [hp, Option.map_none']
          exact hrest
      | some v =>
          simp only [hp, Option.map_some']
          have hne : ¬ ((((p.1, v) : Nat × α).1 == s) = true) := by
            simp only [beq_iff_eq]
            exact fun hc => h.1 hc.symm
          show List.countP _ ((p.1, v) :: List.filterMap _ P') = 0
          rw [List.countP_cons_of_neg (fun it : Nat × α => it.1 == s) _ hne]
          exact hrest

lemma exists_queue_of_countSrc_rankRow_pos (s : Nat)
    (P : List (Nat × List α)) (i : Nat)
    (h : 0 < countSrc s (rankRow P i)) :
    ∃ q, (s, q) ∈ P ∧ i < q.length := by
  induction P with
  | nil => simp [rankRow, countSrc] at h
  | cons p P' ih =>
      rw [show rankRow (p :: P') i = List.filterMap _ (p :: P') from rfl,
        List.filterMap_cons] at h
      cases hp : p.2[i]? with
      | none =>
          simp only [hp, Option.map_none'] at h
          obtain ⟨q, hq, hlen⟩ := ih h
          exact ⟨q, List.mem_cons_of_mem _ hq, hlen⟩
      | some v =>
          simp only [hp, Option.map_some'] at h
          by_cases hps : (p.1 == s) = true
          · have hs : p.1 = s := by simpa using hps
            refine ⟨p.2, ?_, (List.getElem?_eq_some.mp hp).1⟩
            rw [← hs]
            exact List.mem_cons_self _ _
          · have hne : ¬ ((((p.1, v) : Nat × α).1 == s) = true) := by
              simpa using hps
            rw [show countSrc s ((p.1, v) :: List.filterMap (fun p => Option.map (fun r => (p.1, r)) p.2[i]?) P') =
                List.countP (fun it : Nat × α => it.1 == s) ((p.1, v) :: List.filterMap (fun p => Option.map (fun r => (p.1, r)) p.2[i]?) P') from rfl,
              List.countP_cons_of_neg (fun it : Nat × α => it.1 == s) _ hne] at h
            obtain ⟨q, hq, hlen⟩ := ih h
            exact ⟨q, List.mem_cons_of_mem _ hq, hlen⟩

lemma countSrc_append (s : Nat) (l₁ l₂ : List (Nat × α)) :
    countSrc s (l₁ ++ l₂) = countSrc s l₁ + countSrc s l₂ := by
  simp [countSrc]

lemma countSrc_cons_of_eq (s : Nat) (x : Nat × α) (l : List (Nat × α))
    (h : x.1 = s) : countSrc s (x :: l) = countSrc s l + 1 := by
  simp [countSrc, List.countP_cons, h]

lemma countSrc_cons_of_ne (s : Nat) (x : Nat × α) (l : List (Nat × α))
    (h : ¬ (x.1 = s)) : countSrc s (x :: l) = countSrc s l := by
  simp [countSrc, List.countP_cons, h]

lemma countSrc_drop_le (s : Nat) (l : List (Nat × α)) (m : Nat) :
    countSrc s (l.drop m) ≤ countSrc s l :=
  (List.drop_sublist m l).countP_le _

/-- In a rank row shaped `A ++ (a :: (B ++ (b :: C)))` where `a` is the
single `s`-item and `b` the single `t`-item, every prefix holds at least
as many `s`-items as `t`-items, because `a` comes first. -/
lemma take_countSrc_dominates (s t : Nat) :
    ∀ (A B C : List (Nat × α)) (a b : Nat × α),
      a.1 = s → b.1 = t → ¬ (s = t) →
      countSrc t A = 0 → countSrc t B = 0 → countSrc t C = 0 →
      ∀ m, countSrc t ((A ++ (a :: (B ++ (b :: C)))).take m) ≤
        countSrc s ((A ++ (a :: (B ++ (b :: C)))).take m) := by
  intro A
  induction A with
  | nil =>
      intro B C a b ha hb hst hA hB hC m
      match m with
      | 0 => simp [countSrc]
      | m + 1 =>
          rw [List.nil_append, List.take_succ_cons]
          have h1 : countSrc t ((B ++ (b :: C)).take m) ≤ 1 := by
            have h2 := countSrc_take_le t (B ++ (b :: C)) m
            rw [countSrc_append, hB, countSrc_cons_of_eq t b C hb, hC] at h2
            omega
          rw [countSrc_cons_of_ne t a _ (by rw [ha]; exact hst),
            countSrc_cons_of_eq s a _ ha]
          omega
  | cons x A' ih =>
      intro B C a b ha hb hst hA hB hC m
      match m with
      | 0 => simp [countSrc]
      | m + 1 =>
          have hxt : ¬ (x.1 = t) := by
            intro hx
            rw [countSrc_cons_of_eq t x A' hx] at hA
            omega
          have hA' : countSrc t A' = 0 := by
            rw [countSrc_cons_of_ne t x A' hxt] at hA
            exact hA
          have hrec := ih B C a b ha hb hst hA' hB hC m
          rw [List.cons_append, List.take_succ_cons]
          by_cases hxs : x.1 = s
          · rw [countSrc_cons_of_ne t x _ hxt, countSrc_cons_of_eq s x _ hxs]
            omega
          · rw [countSrc_cons_of_ne t x _ hxt, countSrc_cons_of_ne s x _ hxs]
            exact hrec

/-- Totals in such a row: exactly one `s`-item and one `t`-item. -/
lemma row_counts_one (s t : Nat) (A B C : List (Nat × α)) (a b : Nat × α)
    (ha : a.1 = s) (hb : b.1 = t) (hst : ¬ (s = t))
    (hAs : countSrc s A = 0) (hBs : countSrc s B = 0) (hCs : countSrc s C = 0)
    (hAt : countSrc t A = 0) (hBt : countSrc t B = 0) (hCt : countSrc t C = 0) :
    countSrc s (A ++ (a :: (B ++ (b :: C)))) = 1 ∧
    countSrc t (A ++ (a :: (B ++ (b :: C)))) = 1 := by
  have hbs : ¬ (b.1 = s) := by rw [hb]; exact fun hc => hst hc.symm
  have hat : ¬ (a.1 = t) := by rw [ha]; exact hst
  constructor
  · rw [countSrc_append, hAs, countSrc_cons_of_eq s a _ ha, countSrc_append,
      hBs, countSrc_cons_of_ne s b _ hbs, hCs]
  · rw [countSrc_append, hAt, countSrc_cons_of_ne t a _ hat, countSrc_append,
      hBt, countSrc_cons_of_eq t b _ hb, hCt]

/-- Prefix balance over the flattening of rows that each hold exactly one
`s`-item and one `t`-item with the `s`-item first: every prefix holds at
least as many `s`-items as `t`-items, and at most one more. -/
lemma flatten_prefix_bound (s t : Nat) :
    ∀ (rows : List (List (Nat × α))),
      (∀ r ∈ rows, countSrc s r = 1 ∧ countSrc t r = 1 ∧
        ∀ m, countSrc t (r.take m) ≤ countSrc s (r.take m)) →
      ∀ m, countSrc t (rows.flatten.take m) ≤ countSrc s (rows.flatten.take m) ∧
        countSrc s (rows.flatten.take m) ≤ countSrc t (rows.flatten.take m) + 1 := by
  intro rows
  induction rows with
  | nil => intro hrows m; simp [countSrc]
  | cons r rest ih =>
      intro hrows m
      have hr := hrows r (List.mem_cons_self _ _)
      have hrest := ih (fun r' hr' => hrows r' (List.mem_cons_of_mem _ hr'))
      rw [List.flatten_cons]
      rcases le_or_lt m r.length with hm | hm
      · rw [List.take_append_of_le_length hm]
        refine ⟨hr.2.2 m, ?_⟩
        have h2 := countSrc_take_le s r m
        rw [hr.1] at h2
        omega
      · rw [List.take_append_eq_append_take,
          List.take_of_length_le (Nat.le_of_lt hm), countSrc_append,
          countSrc_append]
        have hR := hrest (m - r.length)
        rw [hr.1, hr.2.1]
        omega

/-- A positive count beyond position `m` of the flattening locates a row
holding a matching item whose rank block ends beyond `m`. -/
lemma flatten_drop_countSrc_pos (s : Nat) :
    ∀ (rows : List (List (Nat × α))) (m : Nat),
      0 < countSrc s (rows.flatten.drop m) →
      ∃ i, ∃ h : i < rows.length, 0 < countSrc s rows[i] ∧
        m < ((rows.take (i + 1)).flatten).length := by
  intro rows
  induction rows with
  | nil => intro m h; simp [countSrc] at h
  | cons r rest ih =>
      intro m h
      rw [List.flatten_cons, List.drop_append_eq_append_drop,
        countSrc_append] at h
      by_cases h1 : 0 < countSrc s (r.drop m)
      · refine ⟨0, by simp, ?_, ?_⟩
        · have h3 := countSrc_drop_le s r m
          simpa using Nat.lt_of_lt_of_le h1 h3
        · have hne : ¬ (r.drop m = []) := by
            intro hd
            rw [hd] at h1
            simp [countSrc] at h1
          have hlt : m < r.length := by
            by_contra hge
            push_neg at hge
            exact hne (List.drop_eq_nil_iff.mpr hge)
          simpa using hlt
      · have h2 : 0 < countSrc s (rest.flatten.drop (m - r.length)) := by
          omega
        obtain ⟨i, hi, hpos, hlen⟩ := ih (m - r.length) h2
        refine ⟨i + 1, by simpa using Nat.succ_lt_succ hi, ?_, ?_⟩
        · simpa using hpos
        · simp only [List.take_succ_cons, List.flatten_cons, List.length_append]
          omega

/-- Key separation facts extracted from nodup keys of a decomposed pool. -/
lemma keys_facts {α : Type _} (P₁ P₂ P₃ : List (Nat × List α)) (s t : Nat)
    (qs qt : List α)
    (hkeys : ((P₁ ++ ((s, qs) :: (P₂ ++ ((t, qt) :: P₃)))).map Prod.fst).Nodup) :
    s ∉ P₁.map Prod.fst ∧ s ∉ P₂.map Prod.fst ∧ s ∉ P₃.map Prod.fst ∧
    t ∉ P₁.map Prod.fst ∧ t ∉ P₂.map Prod.fst ∧ t ∉ P₃.map Prod.fst ∧
    ¬ (s = t) := by
  simp only [List.map_append, List.map_cons] at hkeys
  rw [List.nodup_append] at hkeys
  obtain ⟨n1, n2, disj⟩ := hkeys
  rw [List.nodup_cons] at n2
  obtain ⟨hsnot, n3⟩ := n2
  rw [List.nodup_append] at n3
  obtain ⟨n4, n5, disj2⟩ := n3
  rw [List.nodup_cons] at n5
  obtain ⟨htnot, _⟩ := n5
  refine ⟨?_, ?_, ?_, ?_, ?_, htnot, ?_⟩
  · exact fun hmem => disj hmem (List.mem_cons_self _ _)
  · exact fun hmem => hsnot (List.mem_append_left _ hmem)
  · exact fun hmem =>
      hsnot (List.mem_append_right _ (List.mem_cons_of_mem _ hmem))
  · exact fun hmem => disj hmem
      (List.mem_cons_of_mem _
        (List.mem_append_right _ (List.mem_cons_self _ _)))
  · exact fun hmem => disj2 hmem (List.mem_cons_self _ _)
  · exact fun hc =>
      hsnot (hc ▸ List.mem_append_right _ (List.mem_cons_self _ _))

/-- Two distinct keyed entries of a list split it in one of the two
orders. -/
lemma pool_split_pair {α : Type _} (pool : List (Nat × List α)) (s t : Nat)
    (qs qt : List α) (hs : (s, qs) ∈ pool) (ht : (t, qt) ∈ pool)
    (hst : ¬ (s = t)) :
    (∃ P₁ P₂ P₃, pool = P₁ ++ ((s, qs) :: (P₂ ++ ((t, qt) :: P₃)))) ∨
    (∃ P₁ P₂ P₃, pool = P₁ ++ ((t, qt) :: (P₂ ++ ((s, qs) :: P₃)))) := by
  obtain ⟨U, V, rfl⟩ := List.append_of_mem hs
  rcases List.mem_append.mp ht with hU | hV
  · right
    obtain ⟨U₁, U₂, rfl⟩ := List.append_of_mem hU
    exact ⟨U₁, U₂, V, by simp [List.append_assoc]⟩
  · rcases List.mem_cons.mp hV with heq | hV'
    · have : t = s := by
        have := congrArg Prod.fst heq
        simpa using this
      exact absurd this.symm hst
    · left
      obtain ⟨V₁, V₂, rfl⟩ := List.append_of_mem hV'
      exact ⟨U, V₁, V₂, rfl⟩

/-- With separated keys, the queue of the first keyed entry is unique. -/
lemma queue_eq_first {α : Type _} (P₁ P₂ P₃ : List (Nat × List α))
    (s t : Nat) (qs qt q' : List α)
    (hmem : (s, q') ∈ P₁ ++ ((s, qs) :: (P₂ ++ ((t, qt) :: P₃))))
    (h1 : s ∉ P₁.map Prod.fst) (h2 : s ∉ P₂.map Prod.fst)
    (h3 : s ∉ P₃.map Prod.fst) (hst : ¬ (s = t)) : q' = qs := by
  rcases List.mem_append.mp hmem with hP1 | hrest
  · exact absurd (List.mem_map.mpr ⟨(s, q'), hP1, rfl⟩) h1
  · rcases List.mem_cons.mp hrest with heq | hrest2
    · have := congrArg Prod.snd heq
      simpa using this
    · rcases List.mem_append.mp hrest2 with hP2 | hrest3
      · exact absurd (List.mem_map.mpr ⟨(s, q'), hP2, rfl⟩) h2
      · rcases List.mem_cons.mp hrest3 with heq2 | hP3
        · have := congrArg Prod.fst heq2
          exact absurd (by simpa using this) hst
        · exact absurd (List.mem_map.mpr ⟨(s, q'), hP3, rfl⟩) h3

/-- With separated keys, the queue of the second keyed entry is unique. -/
lemma queue_eq_second {α : Type _} (P₁ P₂ P₃ : List (Nat × List α))
    (s t : Nat) (qs qt q' : List α)
    (hmem : (t, q') ∈ P₁ ++ ((s, qs) :: (P₂ ++ ((t, qt) :: P₃))))
    (h4 : t ∉ P₁.map Prod.fst) (h5 : t ∉ P₂.map Prod.fst)
    (h6 : t ∉ P₃.map Prod.fst) (hst : ¬ (s = t)) : q' = qt := by
  rcases List.mem_append.mp hmem with hP1 | hrest
  · exact absurd (List.mem_map.mpr ⟨(t, q'), hP1, rfl⟩) h4
  · rcases List.mem_cons.mp hrest with heq | hrest2
    · have hts : t = s := by simpa using congrArg Prod.fst heq
      exact absurd hts.symm hst
    · rcases List.mem_append.mp hrest2 with hP2 | hrest3
      · exact absurd (List.mem_map.mpr ⟨(t, q'), hP2, rfl⟩) h5
      · rcases List.mem_cons.mp hrest3 with heq2 | hP3
        · have := congrArg Prod.snd heq2
          simpa using this
        · exact absurd (List.mem_map.mpr ⟨(t, q'), hP3, rfl⟩) h6

/-- The rank row of a decomposed pool, at a rank where both entries are
alive. -/
lemma rankRow_split {α : Type _} (P₁ P₂ P₃ : List (Nat × List α))
    (s t : Nat) (qs qt : List α) (i : Nat)
    (hiqs : i < qs.length) (hiqt : i < qt.length) :
    rankRow (P₁ ++ ((s, qs) :: (P₂ ++ ((t, qt) :: P₃)))) i =
      rankRow P₁ i ++
        ((s, qs[i]) :: (rankRow P₂ i ++ ((t, qt[i]) :: rankRow P₃ i))) := by
  rw [rankRow_append, rankRow_cons_alive s qs _ i hiqs, rankRow_append,
    rankRow_cons_alive t qt _ i hiqt]

/-- A source with records beyond any position of the rank sequence has an
entry in the pool. -/
lemma exists_entry_of_remaining {α : Type _} (pool : List (Nat × List α))
    (n j s : Nat) (hs : remainingAfter pool n j s) :
    ∃ q, (s, q) ∈ pool := by
  unfold remainingAfter at hs
  obtain ⟨i, hi, hpos, _⟩ :=
    flatten_drop_countSrc_pos s (rankRows pool) ((j + 1) * n) hs
  have hget : (rankRows pool)[i] = rankRow pool i := by
    simp [rankRows]
  obtain ⟨q, hq, _⟩ :=
    exists_queue_of_countSrc_rankRow_pos s pool i (hget ▸ hpos)
  exact ⟨q, hq⟩

/-- Balance of one batch, given that the first `k` ranks cover it and each
of them holds exactly one item of `s` and one of `t`, `s` first. -/
lemma batch_balance_of_rows {α : Type _} (pool : List (Nat × List α))
    (s t : Nat) (n j : Nat) (hn : 0 < n) (batch : List (Nat × α))
    (hb : (fetchBatches pool (some n))[j]? = some batch) (k : Nat)
    (hrows : ∀ r ∈ (rankRows pool).take k,
      countSrc s r = 1 ∧ countSrc t r = 1 ∧
      ∀ m, countSrc t (r.take m) ≤ countSrc s (r.take m))
    (hmend : (j + 1) * n ≤ (((rankRows pool).take k).flatten).length) :
    countSrc s batch ≤ countSrc t batch + 1 ∧
    countSrc t batch ≤ countSrc s batch + 1 := by
  have hbatch := fetchBatches_getElem pool hn hb
  have hsplit : rankSeq pool =
      ((rankRows pool).take k).flatten ++ ((rankRows pool).drop k).flatten := by
    conv_lhs => rw [rankSeq, ← List.take_append_drop k (rankRows pool)]
    rw [List.flatten_append]
  have htake : ∀ m, m ≤ (((rankRows pool).take k).flatten).length →
      (rankSeq pool).take m = (((rankRows pool).take k).flatten).take m := by
    intro m hm
    rw [hsplit, List.take_append_of_le_length hm]
  have hm0 : j * n ≤ (j + 1) * n := by
    have : (j + 1) * n = j * n + n := by ring
    omega
  have hJ1 := htake ((j + 1) * n) hmend
  have hJ0 := htake (j * n) (le_trans hm0 hmend)
  have hsum : (rankSeq pool).take ((j + 1) * n) =
      (rankSeq pool).take (j * n) ++ batch := by
    rw [hbatch, show (j + 1) * n = j * n + n from by ring, List.take_add]
  have e1 : countSrc s ((((rankRows pool).take k).flatten).take ((j + 1) * n)) =
      countSrc s ((((rankRows pool).take k).flatten).take (j * n)) +
        countSrc s batch := by
    rw [← hJ1, hsum, countSrc_append, hJ0]
  have e2 : countSrc t ((((rankRows pool).take k).flatten).take ((j + 1) * n)) =
      countSrc t ((((rankRows pool).take k).flatten).take (j * n)) +
        countSrc t batch := by
    rw [← hJ1, hsum, countSrc_append, hJ0]
  have hpb := flatten_prefix_bound s t ((rankRows pool).take k) hrows
  obtain ⟨a1, a2⟩ := hpb ((j + 1) * n)
  obtain ⟨b1, b2⟩ := hpb (j * n)
  constructor <;> omega

/-- Both fairness inequalities for a batch, under an ordered decomposition
of the pool around the two sources. -/
lemma fair_of_split {α : Type _} (pool P₁ P₂ P₃ : List (Nat × List α))
    (s t : Nat) (qs qt : List α)
    (hpool : pool = P₁ ++ ((s, qs) :: (P₂ ++ ((t, qt) :: P₃))))
    (hkeys : (pool.map Prod.fst).Nodup)
    (n j : Nat) (hn : 0 < n) (batch : List (Nat × α))
    (hb : (fetchBatches pool (some n))[j]? = some batch)
    (hs : remainingAfter pool n j s) (ht : remainingAfter pool n j t) :
    countSrc s batch ≤ countSrc t batch + 1 ∧
    countSrc t batch ≤ countSrc s batch + 1 := by
  obtain ⟨h1, h2, h3, h4, h5, h6, hst⟩ :=
    keys_facts P₁ P₂ P₃ s t qs qt (hpool ▸ hkeys)
  -- locate a surviving rank for each source
  obtain ⟨is_, hislt, hpos_s, hlen_s⟩ :=
    flatten_drop_countSrc_pos s (rankRows pool) ((j + 1) * n) hs
  obtain ⟨it_, hitlt, hpos_t, hlen_t⟩ :=
    flatten_drop_countSrc_pos t (rankRows pool) ((j + 1) * n) ht
  have hget_s : (rankRows pool)[is_] = rankRow pool is_ := by simp [rankRows]
  have hget_t : (rankRows pool)[it_] = rankRow pool it_ := by simp [rankRows]
  obtain ⟨q1, hq1mem, hq1len⟩ :=
    exists_queue_of_countSrc_rankRow_pos s pool is_ (hget_s ▸ hpos_s)
  obtain ⟨q2, hq2mem, hq2len⟩ :=
    exists_queue_of_countSrc_rankRow_pos t pool it_ (hget_t ▸ hpos_t)
  have hq1 : q1 = qs :=
    queue_eq_first P₁ P₂ P₃ s t qs qt q1 (hpool ▸ hq1mem) h1 h2 h3 hst
  have hq2 : q2 = qt :=
    queue_eq_second P₁ P₂ P₃ s t qs qt q2 (hpool ▸ hq2mem) h4 h5 h6 hst
  rw [hq1] at hq1len
  rw [hq2] at hq2len
  -- the first k ranks hold both sources and cover the batch
  refine batch_balance_of_rows pool s t n j hn batch hb
    (min (is_ + 1) (it_ + 1)) ?_ ?_
  · intro r hr
    have h0 : (rankRows pool).take (min (is_ + 1) (it_ + 1)) =
        (List.range (min (min (is_ + 1) (it_ + 1)) (maxQLen pool))).map
          (rankRow pool) := by
      simp [rankRows, ← List.map_take, List.take_range]
    rw [h0] at hr
    obtain ⟨i, hi, rfl⟩ := List.mem_map.mp hr
    have hik : i < min (is_ + 1) (it_ + 1) :=
      lt_of_lt_of_le (List.mem_range.mp hi) (min_le_left _ _)
    have hiqs : i < qs.length := by
      have := lt_min_iff.mp hik
      omega
    have hiqt : i < qt.length := by
      have := lt_min_iff.mp hik
      omega
    have z1s := countSrc_rankRow_of_notMem s P₁ i h1
    have z2s := countSrc_rankRow_of_notMem s P₂ i h2
    have z3s := countSrc_rankRow_of_notMem s P₃ i h3
    have z1t := countSrc_rankRow_of_notMem t P₁ i h4
    have z2t := countSrc_rankRow_of_notMem t P₂ i h5
    have z3t := countSrc_rankRow_of_notMem t P₃ i h6
    rw [hpool, rankRow_split P₁ P₂ P₃ s t qs qt i hiqs hiqt]
    have hone := row_counts_one s t (rankRow P₁ i) (rankRow P₂ i)
      (rankRow P₃ i) (s, qs[i]) (t, qt[i]) rfl rfl hst
      z1s z2s z3s z1t z2t z3t
    exact ⟨hone.1, hone.2,
      take_countSrc_dominates s t (rankRow P₁ i) (rankRow P₂ i)
        (rankRow P₃ i) (s, qs[i]) (t, qt[i]) rfl rfl hst z1t z2t z3t⟩
  · rcases le_total is_ it_ with hle | hle
    · have hkk : min (is_ + 1) (it_ + 1) = is_ + 1 := by omega
      rw [hkk]
      exact Nat.le_of_lt hlen_s
    · have hkk : min (is_ + 1) (it_ + 1) = it_ + 1 := by omega
      rw [hkk]
      exact Nat.le_of_lt hlen_t

/-- C5: inside every batch emitted by the partitioner (chunk size `n` at
least 1, pool keyed by distinct page ids), any two sources that both still
have pending records after the batch received numbers of records differing
by at most one: each surviving source contributes exactly one row per rank
in a fixed page order, so a contiguous chunk of the rank-major sequence
cannot favour one surviving source by more than one row. -/
theorem c5_batch_fairness {α : Type _} (pool : List (Nat × List α))
    (n j : Nat) (batch : List (Nat × α)) (s t : Nat)
    (hn : 0 < n) (hkeys : (pool.map Prod.fst).Nodup)
    (hb : (fetchBatches pool (some n))[j]? = some batch)
    (hs : remainingAfter pool n j s) (ht : remainingAfter pool n j t) :
    (sourceList batch s).length ≤ (sourceList batch t).length + 1 := by
  rw [sourceList_length, sourceList_length]
  by_cases hst : s = t
  · rw [hst]
    omega
  · obtain ⟨qs, hsm⟩ := exists_entry_of_remaining pool n j s hs
    obtain ⟨qt, htm⟩ := exists_entry_of_remaining pool n j t ht
    rcases pool_split_pair pool s t qs qt hsm htm hst with
      ⟨P₁, P₂, P₃, hsplit⟩ | ⟨P₁, P₂, P₃, hsplit⟩
    · exact (fair_of_split pool P₁ P₂ P₃ s t qs qt hsplit hkeys
        n j hn batch hb hs ht).1
    · exact (fair_of_split pool P₁ P₂ P₃ t s qt qs hsplit hkeys
        n j hn batch hb ht hs).2

/-- Two-source pool for the C5 witness. -/
def w5pool : List (Nat × List String) := [(0, ["a", "b"]), (1, ["c", "d"])]

theorem c5_batch_fairness_witness :
    (0 < 2 ∧ (w5pool.map Prod.fst).Nodup ∧
      (fetchBatches w5pool (some 2))[0]? = some [(0, "a"), (1, "c")] ∧
      remainingAfter w5pool 2 0 0 ∧ remainingAfter w5pool 2 0 1) ∧
    (sourceList [(0, "a"), (1, "c")] 0).length ≤
      (sourceList [(0, "a"), (1, "c")] 1).length + 1 :=
  ⟨⟨by decide, by decide, by decide, by decide, by decide⟩,
    c5_batch_fairness w5pool 2 0 [(0, "a"), (1, "c")] 0 1
      (by decide) (by decide) (by decide) (by decide) (by decide)⟩

/-- Pending pool: source A (page 0) with three records newest-first,
source B (page 1) with one. -/
def c6pool : List (Nat × List String) := [(0, ["r1", "r2", "r3"]), (1, ["r4"])]

/-- C6: with chunk size 3 over the two sources — a per-source target of
two records per round, since the ceiling of 3/2 is 2 — the partitioner
yields exactly two batches in order: first r1 and r2 for A together with
r4 for B, then r3 alone for A; each round draws from the front of the
newest-first queues. -/
theorem c6_two_batches :
    fetchBatches c6pool (some 3) =
      [[(0, "r1"), (1, "r4"), (0, "r2")], [(0, "r3")]] ∧
    sourceList [(0, "r1"), (1, "r4"), (0, "r2")] 0 = ["r1", "r2"] ∧
    sourceList [(0, "r1"), (1, "r4"), (0, "r2")] 1 = ["r4"] ∧
    sourceList [(0, "r3")] 0 = ["r3"] ∧
    sourceList [(0, "r3")] 1 = [] := by decide

/-! # C7: replaying persisted responses is not idempotent -/

/-- One link post with a resolvable URL, as returned by the simulated API. -/
def c7post : SimPost :=
  ⟨some "post9", some "link", some "http://sh.rt/z", none,
    some "2023-01-01", some "http://news.example/a"⟩

/-- Config of the C7 crawl (defaults of `save_all_page_feeds`). -/
def c7cfg : CrawlConfig := ⟨30, none, "p1"⟩

/-- The records collected from the single-page response stream. -/
def c7recs : List ParsedPost :=
  (collect_feed_posts c7cfg wSt [.page [c7post] none]).1

/-- C7 counterexample: replaying the identical response stream after its
records were persisted still produces a non-empty frame to persist —
`drop_duplicates` only deduplicates within the current frame, nothing is
checked against the table — and after the second append the `fb_posts`
table holds two rows with the same (post id, source id) pair. -/
theorem c7_counterexample :
    ¬ (toPersistRows "t0" "pg" "p1" c7recs = []) ∧
    ¬ ((save_page_feed (save_page_feed [] "t0" "pg" "p1" c7recs)
          "t0" "pg" "p1" c7recs).map
        (fun r => (r.post_id, r.page_id))).Nodup := by
  constructor
  · decide
  · decide

/-- C7 amended: persisting a crawl appends its within-frame-deduplicated
records to the table unconditionally; no lookup against previously
persisted rows happens, so replaying the same responses (a non-empty
record list) appends the same rows again and the table gains duplicate
(post id, source id) rows. -/
theorem c7_amended (table : List SavedRow) (now name pid : String)
    (recs : List ParsedPost) (h : ¬ (recs = [])) :
    save_page_feed table now name pid recs =
      table ++ toPersistRows now name pid recs ∧
    ¬ (toPersistRows now name pid recs = []) := by
  refine ⟨rfl, ?_⟩
  match recs with
  | [] => exact absurd rfl h
  | r :: rs => simp [toPersistRows, dropDuplicates, ddGo]

theorem c7_amended_witness :
    ¬ (c7recs = []) ∧
    (save_page_feed [] "t0" "pg" "p1" c7recs =
        [] ++ toPersistRows "t0" "pg" "p1" c7recs ∧
      ¬ (toPersistRows "t0" "pg" "p1" c7recs = [])) :=
  ⟨by decide, c7_amended [] "t0" "pg" "p1" c7recs (by decide)⟩

/-! # C9: the pending listing does not exclude archived posts -/

/-- A post row retrieved on 2016-10-01 (inside the default range). -/
def c9row : FbPostRow :=
  ⟨7, "news.example", "http://news.example/a", "2016-05-01", "2016-10-01"⟩

/-- A database where that post already has a persisted article. -/
def c9db : NewsDb :=
  ⟨[c9row], [⟨"http://news.example/a", 7, "A title", "Body text."⟩]⟩

/-- C9 counterexample: with the default date range and no chunking, the
pool handed to the fetch round contains a post whose URL is already
persisted as an article for the same page — the query reads only
`fb_posts` and never consults the `articles` table. -/
theorem c9_counterexample :
    ∃ b ∈ collect_url_data c9db defaultRange none, ∃ it ∈ b,
      alreadyArchived c9db it := by decide

/-- C9 amended: the pending listing is computed from the `fb_posts` rows
and the date range alone — replacing the `articles` table by any other
changes nothing — so already-archived posts are listed (and re-fetched)
again; the only deduplication is the `GROUP BY (page_id, base_url, link)`
within `fb_posts` itself. -/
theorem c9_amended (posts : List FbPostRow) (arts arts' : List ArticleRow)
    (range : DateRange) (cs : Option Nat) :
    collect_url_data ⟨posts, arts⟩ range cs =
      collect_url_data ⟨posts, arts'⟩ range cs := rfl

end NewsArchives
